import Mathlib

/-!
Verification of the vueq client-side data-fetching cache.

The definitions below are a shallow embedding of the core of the library:
the key canonicalizer (src/utils/index.ts), the cache store and
subscription/eviction manager (src/composables/QueryClient/index.ts),
the fetch orchestrator (src/composables/useFetch/index.ts), and the
fetching counter (useIsFetching).  JavaScript numbers that hold
timestamps, durations and counts are embedded as Int; JS objects and
maps keyed by strings are embedded as association lists.
-/

namespace VueQ

/-- Runtime value appearing in the data and error fields of a cache
entry: JS null, a string, a number, or an opaque error object. -/
inductive JSVal where
  | null
  | str (s : String)
  | num (n : Int)
  | errObj (id : Nat)
deriving DecidableEq, Repr

/-- JS truthiness of an embedded value. -/
def jsTruthy : JSVal → Bool
  | .null => false
  | .str s => s ≠ ""
  | .num n => n ≠ 0
  | .errObj _ => true

/-- QueryStatus from src/types: lifecycle of the cached value. -/
inductive QueryStatus where
  | pending
  | success
  | error
deriving DecidableEq, Repr

/-- FetchStatus from src/types: lifecycle of the in-flight operation. -/
inductive FetchStatus where
  | fetching
  | paused
  | idle
deriving DecidableEq, Repr

/-- CacheEntry from src/types.  data is absent (undefined) or a value;
error holds null, an error object, or a string; updatedAt and cacheTime
are JS numbers (ms); subscribers is a JS number, embedded as Int so the
code's arithmetic on it is represented exactly. -/
structure CacheEntry where
  data : Option JSVal
  error : JSVal
  status : QueryStatus
  fetchStatus : FetchStatus
  updatedAt : Int
  cacheTime : Int
  subscribers : Int
deriving DecidableEq, Repr

/-- Lookup in a string-keyed association list, embedding JS
Record/Map lookup (keys are unique in the JS objects being modelled). -/
def mapGet {α : Type} : List (String × α) → String → Option α
  | [], _ => none
  | (k', v) :: rest, k => if k' = k then some v else mapGet rest k

/-- Insert or replace a binding, embedding JS property assignment. -/
def mapSet {α : Type} : List (String × α) → String → α → List (String × α)
  | [], k, v => [(k, v)]
  | (k', v') :: rest, k, v =>
      if k' = k then (k, v) :: rest else (k', v') :: mapSet rest k v

/-- Delete a binding, embedding JS delete / Map.delete. -/
def mapDel {α : Type} : List (String × α) → String → List (String × α)
  | [], _ => []
  | (k', v') :: rest, k => if k' = k then rest else (k', v') :: mapDel rest k

/-- Arbitrary query-key value: a string, a number, an ordered sequence,
or a mapping with insertion-ordered fields (the JS object passed as a
key). -/
inductive KeyVal where
  | str (s : String)
  | num (n : Int)
  | arr (xs : List KeyVal)
  | obj (fields : List (String × KeyVal))

mutual

/-- JS String(x) coercion as used by Array.prototype.join: strings are
kept, numbers printed, nested arrays are recursively joined with a
comma, plain objects become the literal text between brackets. -/
def jsToString : KeyVal → String
  | .str s => s
  | .num n => toString n
  | .arr xs => jsJoinComma xs
  | .obj _ => "[object Object]"

/-- Array.prototype.join with separator comma. -/
def jsJoinComma : List KeyVal → String
  | [] => ""
  | [x] => jsToString x
  | x :: y :: ys => jsToString x ++ "," ++ jsJoinComma (y :: ys)

end

mutual

/-- JSON.stringify without a replacer: object fields are emitted in
insertion order, with no sorting of keys. -/
def jsonStringify : KeyVal → String
  | .str s => "\"" ++ s ++ "\""
  | .num n => toString n
  | .arr xs => "[" ++ jsonStringifyList xs ++ "]"
  | .obj fs => "\x7b" ++ jsonStringifyFields fs ++ "\x7d"

/-- Elements of a JSON array, comma separated. -/
def jsonStringifyList : List KeyVal → String
  | [] => ""
  | [x] => jsonStringify x
  | x :: y :: ys => jsonStringify x ++ "," ++ jsonStringifyList (y :: ys)

/-- Fields of a JSON object, comma separated, in the order given. -/
def jsonStringifyFields : List (String × KeyVal) → String
  | [] => ""
  | [(k, v)] => "\"" ++ k ++ "\":" ++ jsonStringify v
  | (k, v) :: f :: fs =>
      "\"" ++ k ++ "\":" ++ jsonStringify v ++ "," ++ jsonStringifyFields (f :: fs)

end

/-- serializeKey from src/utils/index.ts (lines 10-21): a string is
returned verbatim; an array is joined with a comma after JS string
coercion of each element; any other value goes through JSON.stringify
with no replacer. -/
def serializeKey : KeyVal → String
  | .str s => s
  | .arr xs => jsJoinComma xs
  | v => jsonStringify v

/-- QueryClient.getEntry: the store is addressed by the canonical
string of the raw key. -/
def getEntryByKey (entries : List (String × CacheEntry)) (k : KeyVal) :
    Option CacheEntry :=
  mapGet entries (serializeKey k)

/-- The staleTime option: a finite duration in ms or JS Infinity. -/
inductive STime where
  | fin (d : Int)
  | inf
deriving DecidableEq, Repr

/-- isStale from src/composables/useFetch/index.ts (lines 134-143),
with the conditionals in source order: no entry or no data means stale;
staleTime 0 means always stale; Infinity means never stale; otherwise
compare the age of the entry against staleTime. -/
def isStale (entry : Option CacheEntry) (staleTime : STime) (now : Int) :
    Bool :=
  match entry with
  | none => true
  | some e =>
    if e.data = none then true
    else if staleTime = .fin 0 then true
    else
      match staleTime with
      | .inf => false
      | .fin d => decide (now - e.updatedAt ≥ d)

/-- The staleness policy exactly as the specification words it, written
as an independent reference function: stale if the entry is absent or
its data is absent; stale unconditionally when staleTime is 0; never
stale when staleTime is Infinity; otherwise stale iff
now - updatedAt >= staleTime. -/
def isStaleRef (entry : Option CacheEntry) (staleTime : STime) (now : Int) :
    Bool :=
  match entry with
  | none => true
  | some e =>
    if e.data.isNone then true
    else
      match staleTime with
      | .inf => false
      | .fin d => if d = 0 then true else decide (now - e.updatedAt ≥ d)

/-- Outcome of one invocation of the fetcher: the promise either
fulfills with a value or rejects with a reason (any JS value). -/
inductive AttemptOutcome where
  | fulfilled (v : JSVal)
  | rejectedWith (e : JSVal)
deriving DecidableEq, Repr

/-- Trace of one call to runFetcher: the settled outcome (an ok value
of none embeds returning the undefined data), how many times the
fetcher was invoked, and the delays slept between consecutive
attempts. -/
structure FetchTrace where
  result : Except JSVal (Option JSVal)
  calls : Nat
  waits : List Int
deriving Repr

/-- Loop body of runFetcher (src/composables/useFetch/index.ts lines
40-53), recursing on the number of attempts still allowed after the
current one.  catchError turns a fulfilled promise into an undefined
err with the value as data, and a rejected promise into its reason as
err with undefined data; the loop then tests the TRUTHINESS of err
(the bang-err check on line 48): a fulfilled attempt returns its
value, but a rejection whose reason is falsy also returns the data,
which is undefined, immediately and with no retry.  Only a truthy
reason is kept as lastError and retried after sleeping retryDelay,
and the error thrown at the end is the one of the last attempt made. -/
def runFetcherFrom (fetch : Nat → AttemptOutcome) (retryDelay : Int) :
    Nat → Nat → FetchTrace
  | attempt, 0 =>
    match fetch attempt with
    | .fulfilled v => ⟨.ok (some v), 1, []⟩
    | .rejectedWith e =>
      if jsTruthy e then ⟨.error e, 1, []⟩ else ⟨.ok none, 1, []⟩
  | attempt, r + 1 =>
    match fetch attempt with
    | .fulfilled v => ⟨.ok (some v), 1, []⟩
    | .rejectedWith e =>
      if jsTruthy e then
        let rest := runFetcherFrom fetch retryDelay (attempt + 1) r
        ⟨rest.result, rest.calls + 1, retryDelay :: rest.waits⟩
      else ⟨.ok none, 1, []⟩

/-- runFetcher: the loop runs attempts 0 through retry. -/
def runFetcher (fetch : Nat → AttemptOutcome) (retry : Nat)
    (retryDelay : Int) : FetchTrace :=
  runFetcherFrom fetch retryDelay 0 retry

/-- Per-call configuration of internalFetch: the resolved enabled flag,
the force argument, and the staleTime/cacheTime options. -/
structure FetchConfig where
  enabled : Bool
  force : Bool
  staleTime : STime
  cacheTime : Int
deriving DecidableEq, Repr

/-- Result a caller of internalFetch observes synchronously: no fetch
(returned undefined), joined an existing in-flight promise, or started
a new one.  Promises are identified by the id they get on creation. -/
inductive FetchCallResult where
  | noFetch
  | joined (pid : Nat)
  | started (pid : Nat)
deriving DecidableEq, Repr

/-- Shared mutable state touched by internalFetch: the cache store
entries, the module-level requestPromises registry, a counter supplying
fresh promise ids, and the running total of fetcher invocations. -/
structure OrchState where
  entries : List (String × CacheEntry)
  registry : List (String × Nat)
  nextPromise : Nat
  fetchCount : Nat
deriving DecidableEq, Repr

/-- Tail of internalFetch after the enabled and dedup checks (lines
168-245): staleness gate, then creation of a fresh entry (pending,
fetching, one subscriber) or update of the existing one (fetchStatus
fetching, error set to the string literal containing the four letters
of null), then the synchronous start of the shared async body, which
invokes the fetcher once before suspending, and the registration of
the new promise. -/
def internalFetchStart (s : OrchState) (k : String) (cfg : FetchConfig)
    (now : Int) : FetchCallResult × OrchState :=
  if !cfg.force && !(isStale (mapGet s.entries k) cfg.staleTime now) then
    (.noFetch, s)
  else
    let entries' :=
      match mapGet s.entries k with
      | none =>
        mapSet s.entries k
          ⟨none, .null, .pending, .fetching, 0, cfg.cacheTime, 1⟩
      | some e =>
        mapSet s.entries k
          { e with fetchStatus := .fetching, error := .str "null" }
    (.started s.nextPromise,
      { entries := entries'
        registry := mapSet s.registry k s.nextPromise
        nextPromise := s.nextPromise + 1
        fetchCount := s.fetchCount + 1 })

/-- internalFetch (src/composables/useFetch/index.ts lines 157-246),
synchronous part: return undefined when disabled and not forced;
return the registered promise when the registry holds the key and the
current entry is fetching; otherwise proceed to the staleness gate and
the start of a new operation. -/
def internalFetch (s : OrchState) (k : String) (cfg : FetchConfig)
    (now : Int) : FetchCallResult × OrchState :=
  if !cfg.enabled && !cfg.force then (.noFetch, s)
  else
    match mapGet s.registry k with
    | some pid =>
      if (mapGet s.entries k).map (·.fetchStatus) = some .fetching then
        (.joined pid, s)
      else internalFetchStart s k cfg now
    | none => internalFetchStart s k cfg now

/-- Success continuation of the shared async body (lines 196-215 plus
the finally clause): write the result over the previous entry with a
cleared error, success status, idle fetchStatus and a fresh updatedAt,
then delete the key from the registry.  When the entry is absent the
source spreads a non-null-asserted undefined, leaving subscribers
unset; that corner is embedded with subscribers 0. -/
def settleSuccess (s : OrchState) (k : String) (v : Option JSVal) (now : Int)
    (cacheTime : Int) : OrchState :=
  let entries' :=
    match mapGet s.entries k with
    | none =>
      mapSet s.entries k ⟨v, .null, .success, .idle, now, cacheTime, 0⟩
    | some e =>
      mapSet s.entries k
        { e with data := v, error := .null, status := .success,
                 fetchStatus := .idle, updatedAt := now,
                 cacheTime := cacheTime }
  { s with entries := entries', registry := mapDel s.registry k }

/-- Failure continuation of the shared async body (lines 216-227 plus
the finally clause): updateEntry with error status, idle fetchStatus
and the thrown error (a no-op when the entry is absent), then delete
the key from the registry. -/
def settleFailure (s : OrchState) (k : String) (e : JSVal) : OrchState :=
  let entries' :=
    match mapGet s.entries k with
    | none => s.entries
    | some en =>
      mapSet s.entries k
        { en with status := .error, fetchStatus := .idle, error := e }
  { s with entries := entries', registry := mapDel s.registry k }

/-- Outcome of the promise returned by internalFetch and refetch. -/
inductive PromiseOutcome where
  | resolved (v : Option JSVal)
  | rejected (e : JSVal)
deriving DecidableEq, Repr

/-- The full shared async body (lines 195-243): run the retry loop,
then the success or failure continuation.  The try/catch inside the
body handles the error without rethrowing and the body returns no
value, so the promise itself is fulfilled with undefined on both
paths. -/
def runOperation (s : OrchState) (k : String) (fetch : Nat → AttemptOutcome)
    (retry : Nat) (retryDelay now cacheTime : Int) :
    PromiseOutcome × OrchState :=
  match (runFetcher fetch retry retryDelay).result with
  | .ok v => (.resolved none, settleSuccess s k v now cacheTime)
  | .error e => (.resolved none, settleFailure s k e)

/-- invalidate from the returned handle (lines 249-252): updateEntry
with updatedAt 0 (a no-op when the entry is absent, and touching no
other field), then internalFetch with the default force of false. -/
def handleInvalidate (s : OrchState) (k : String) (cfg : FetchConfig)
    (now : Int) : FetchCallResult × OrchState :=
  let s' :=
    match mapGet s.entries k with
    | none => s
    | some e => { s with entries := mapSet s.entries k { e with updatedAt := 0 } }
  internalFetch s' k { cfg with force := false } now

/-- Status observable of the handle: the status of the entry, or pending when
the entry is absent. -/
def handleStatus (s : OrchState) (k : String) : QueryStatus :=
  ((mapGet s.entries k).map (·.status)).getD .pending

/-- Observable isError of the handle. -/
def handleIsError (s : OrchState) (k : String) : Bool :=
  handleStatus s k = .error

/-- Error observable of the handle: the error field of the entry, absent when
the entry is absent. -/
def handleError (s : OrchState) (k : String) : Option JSVal :=
  (mapGet s.entries k).map (·.error)

/-- State owned by QueryClient (src/composables/QueryClient/index.ts):
the entry map and the gcTimeouts map.  A pending setTimeout is embedded
by the absolute time at which it fires. -/
structure ClientState where
  entries : List (String × CacheEntry)
  gcTimeouts : List (String × Int)
deriving DecidableEq, Repr

/-- clearGcTimeout: cancel and forget the timer of a key. -/
def clearGcTimeout (s : ClientState) (k : String) : ClientState :=
  { s with gcTimeouts := mapDel s.gcTimeouts k }

/-- scheduleGc (lines 76-87): clear any previous timer for the key,
then register a fresh one firing time ms from now. -/
def scheduleGc (s : ClientState) (k : String) (time now : Int) : ClientState :=
  let s' := clearGcTimeout s k
  { s' with gcTimeouts := mapSet s'.gcTimeouts k (now + time) }

/-- updateSubscribers (lines 60-74): a no-op when the entry is absent;
otherwise store the given count verbatim, then schedule eviction when
the stored count is at most 0 and cancel any pending eviction when it
is positive. -/
def updateSubscribers (s : ClientState) (k : String) (count : Int)
    (cacheTime now : Int) : ClientState :=
  match mapGet s.entries k with
  | none => s
  | some e =>
    let e' := { e with subscribers := count }
    let s' := { s with entries := mapSet s.entries k e' }
    if e'.subscribers ≤ 0 then scheduleGc s' k cacheTime now
    else clearGcTimeout s' k

/-- removeEntry (lines 53-58): clear the timer, delete the entry. -/
def removeEntry (s : ClientState) (k : String) : ClientState :=
  let s' := clearGcTimeout s k
  { s' with entries := mapDel s'.entries k }

/-- Old-key branch of the watch on key (src/composables/useFetch,
lines 278-285): when the old key still has an entry, pass its
subscriber count minus one to updateSubscribers, with no lower bound
applied. -/
def keyChangeOldKey (s : ClientState) (oldKey : String) (cacheTime now : Int) :
    ClientState :=
  match mapGet s.entries oldKey with
  | none => s
  | some e => updateSubscribers s oldKey (e.subscribers - 1) cacheTime now

/-- onScopeDispose teardown (lines 365-376): when the entry exists,
pass its subscriber count minus one, floored at 0, to
updateSubscribers. -/
def teardown (s : ClientState) (k : String) (cacheTime now : Int) :
    ClientState :=
  match mapGet s.entries k with
  | none => s
  | some e => updateSubscribers s k (max 0 (e.subscribers - 1)) cacheTime now

/-- Observation of the JS timer queue for one key: the entry of k is
still present when the wall clock reaches t iff no eviction timer for k
has a deadline at or before t; a fired timer runs removeEntry on its
own key only. -/
def aliveAt (s : ClientState) (k : String) (t : Int) : Bool :=
  match mapGet s.gcTimeouts k with
  | some deadline => if deadline ≤ t then false else (mapGet s.entries k).isSome
  | none => (mapGet s.entries k).isSome

/-- All timer deadlines registered for one key, used to state that at
most one live timer exists per key. -/
def timersFor (g : List (String × Int)) (k : String) : List Int :=
  (g.filter (fun p => p.1 = k)).map Prod.snd

/-- JS String.prototype.startsWith, embedded on character lists. -/
def jsStartsWith (s pre : String) : Bool :=
  pre.toList.isPrefixOf s.toList

/-- Group membership used by useIsFetching (src/composables/
useIsFetching, lines 29-41): a canonical key belongs to the group of a
target key iff it equals the target or extends it past a comma. -/
def isMemberOfGroup (k target : String) : Bool :=
  k = target || jsStartsWith k (target ++ ",")

/-- useIsFetching (lines 12-43): with no filter, count the entries
whose fetchStatus is fetching; with a query-key filter, count the
fetching entries whose canonical key is in the group of the serialized
filter key. -/
def useIsFetching (entries : List (String × CacheEntry))
    (filterKey : Option KeyVal) : Nat :=
  match filterKey with
  | none => entries.countP (fun p => p.2.fetchStatus = .fetching)
  | some qk =>
    let targetKey := serializeKey qk
    entries.countP
      (fun p => decide (p.2.fetchStatus = .fetching) &&
        isMemberOfGroup p.1 targetKey)

/-- Fixture: fresh cached entry with one subscriber. -/
def exEntryCached : CacheEntry :=
  ⟨some (.str "cached"), .null, .success, .idle, 500, 1000, 1⟩

/-- Fixture: entry whose subscriber count has already reached 0. -/
def exEntryZeroSubs : CacheEntry :=
  ⟨some (.str "d"), .null, .success, .idle, 0, 1000, 0⟩

/-- Fixture: entry in the middle of a fetch. -/
def exEntryFetching : CacheEntry :=
  ⟨some (.str "old"), .str "null", .success, .fetching, 0, 1000, 1⟩

/-- Fixture: orchestrator state with no entries and no in-flight
requests. -/
def exOrchEmpty : OrchState := ⟨[], [], 0, 0⟩

/-- Fixture: orchestrator state holding one fresh entry. -/
def exOrchCached : OrchState := ⟨[("k", exEntryCached)], [], 0, 0⟩

/-- Fixture: orchestrator state with one entry mid-fetch and its
promise registered. -/
def exOrchFetching : OrchState := ⟨[("k8", exEntryFetching)], [("k8", 0)], 1, 1⟩

/-- Fixture: client state with one entry and no timers. -/
def exClientOne : ClientState := ⟨[("todos", exEntryCached)], []⟩

/-- Fixture: client state whose entry already has 0 subscribers. -/
def exClientZero : ClientState := ⟨[("old", exEntryZeroSubs)], []⟩

/-- Fixture: configuration with staleTime 0 (always stale). -/
def cfgAlways : FetchConfig := ⟨true, false, .fin 0, 300000⟩

/-- Fixture: configuration with staleTime Infinity. -/
def cfgInf : FetchConfig := ⟨true, false, .inf, 1000⟩

/-- Fixture: configuration with a finite staleTime of 100 ms. -/
def cfgFin100 : FetchConfig := ⟨true, false, .fin 100, 1000⟩

/-- Fixture: fetcher rejecting with truthy error objects on attempts 0
and 1 and fulfilling on attempt 2. -/
def exFetchFailTwice : Nat → AttemptOutcome :=
  fun n => if n < 2 then .rejectedWith (.errObj n) else .fulfilled (.str "Success")

/-- Fixture: fetcher that rejects every attempt with a truthy reason. -/
def exFetchAlwaysFail : Nat → AttemptOutcome :=
  fun _ => .rejectedWith (.str "boom")

/-- Fixture: fetcher that rejects every attempt with the falsy number
0. -/
def exFetchRejectZero : Nat → AttemptOutcome :=
  fun _ => .rejectedWith (.num 0)

/-- Fixture: cache entries for the prefix-group counting example. -/
def exEntriesGroups : List (String × CacheEntry) :=
  [("todos", exEntryFetching), ("todos,1", exEntryFetching),
   ("todos,list", exEntryFetching), ("todo", exEntryFetching)]

theorem mapGet_mapSet_self {α : Type} (m : List (String × α)) (k : String)
    (v : α) : mapGet (mapSet m k v) k = some v := by
  induction m with
  | nil => simp [mapSet, mapGet]
  | cons p rest ih =>
    by_cases h : p.1 = k
    · simp [mapSet, mapGet, h]
    · simp [mapSet, mapGet, h, ih]

theorem mapDel_mapSet {α : Type} (m : List (String × α)) (k : String)
    (v : α) : mapDel (mapSet m k v) k = mapDel m k := by
  induction m with
  | nil => simp [mapSet, mapDel]
  | cons p rest ih =>
    by_cases h : p.1 = k
    · simp [mapSet, mapDel, h]
    · simp [mapSet, mapDel, h, ih]

theorem mapDel_eq_of_get_none {α : Type} (m : List (String × α))
    (k : String) (h : mapGet m k = none) : mapDel m k = m := by
  induction m with
  | nil => simp [mapDel]
  | cons p rest ih =>
    by_cases hk : p.1 = k
    · simp [mapGet, hk] at h
    · simp [mapGet, hk] at h
      simp [mapDel, hk, ih h]

theorem mapGet_eq_none_of_not_mem {α : Type} (m : List (String × α))
    (k : String) (h : k ∉ m.map Prod.fst) : mapGet m k = none := by
  induction m with
  | nil => rfl
  | cons p rest ih =>
    obtain ⟨k', v⟩ := p
    rw [List.map_cons, List.mem_cons] at h
    push_neg at h
    have hk : k' ≠ k := fun hc => h.1 hc.symm
    show (if k' = k then some v else mapGet rest k) = none
    rw [if_neg hk]
    exact ih h.2

theorem mapGet_isSome_of_mem {α : Type} (m : List (String × α)) (k : String)
    (h : k ∈ m.map Prod.fst) : (mapGet m k).isSome = true := by
  induction m with
  | nil => simp at h
  | cons p rest ih =>
    obtain ⟨k', v⟩ := p
    show (if k' = k then some v else mapGet rest k).isSome = true
    by_cases hk : k' = k
    · rw [if_pos hk]; rfl
    · rw [if_neg hk]
      rw [List.map_cons, List.mem_cons] at h
      rcases h with h | h
      · exact absurd h.symm hk
      · exact ih h

theorem mapGet_mapDel_self {α : Type} (m : List (String × α)) (k : String)
    (h : (m.map Prod.fst).Nodup) : mapGet (mapDel m k) k = none := by
  induction m with
  | nil => rfl
  | cons p rest ih =>
    obtain ⟨k', v⟩ := p
    rw [List.map_cons, List.nodup_cons] at h
    by_cases hk : k' = k
    · show mapGet (if k' = k then rest else (k', v) :: mapDel rest k) k = none
      rw [if_pos hk]
      subst hk
      exact mapGet_eq_none_of_not_mem rest k' h.1
    · show mapGet (if k' = k then rest else (k', v) :: mapDel rest k) k = none
      rw [if_neg hk]
      show (if k' = k then some v else mapGet (mapDel rest k) k) = none
      rw [if_neg hk]
      exact ih h.2

theorem timersFor_mapSet_of_none (g : List (String × Int)) (k : String)
    (v : Int) (h : mapGet g k = none) : timersFor (mapSet g k v) k = [v] := by
  induction g with
  | nil => simp [mapSet, timersFor]
  | cons p rest ih =>
    obtain ⟨k', v'⟩ := p
    by_cases hk : k' = k
    · exfalso
      rw [show mapGet ((k', v') :: rest) k =
            (if k' = k then some v' else mapGet rest k) from rfl,
          if_pos hk] at h
      exact Option.noConfusion h
    · rw [show mapGet ((k', v') :: rest) k =
            (if k' = k then some v' else mapGet rest k) from rfl,
          if_neg hk] at h
      rw [show mapSet ((k', v') :: rest) k v =
            (if k' = k then (k, v) :: rest else (k', v') :: mapSet rest k v)
            from rfl,
          if_neg hk]
      rw [timersFor, List.filter_cons]
      simp only [show decide ((k', v').1 = k) = false from by simpa using hk,
        Bool.false_eq_true, if_false]
      exact ih h

theorem keys_mapSet_of_none {α : Type} (m : List (String × α)) (k : String)
    (v : α) (h : mapGet m k = none) :
    (mapSet m k v).map Prod.fst = m.map Prod.fst ++ [k] := by
  induction m with
  | nil => rfl
  | cons p rest ih =>
    obtain ⟨k', v'⟩ := p
    by_cases hk : k' = k
    · exfalso
      rw [show mapGet ((k', v') :: rest) k =
            (if k' = k then some v' else mapGet rest k) from rfl,
          if_pos hk] at h
      exact Option.noConfusion h
    · rw [show mapGet ((k', v') :: rest) k =
            (if k' = k then some v' else mapGet rest k) from rfl,
          if_neg hk] at h
      rw [show mapSet ((k', v') :: rest) k v =
            (if k' = k then (k, v) :: rest else (k', v') :: mapSet rest k v)
            from rfl,
          if_neg hk, List.map_cons, ih h, List.map_cons, List.cons_append]

theorem keys_mapSet_of_some {α : Type} (m : List (String × α)) (k : String)
    (v w : α) (h : mapGet m k = some w) :
    (mapSet m k v).map Prod.fst = m.map Prod.fst := by
  induction m with
  | nil => exact absurd h Option.noConfusion
  | cons p rest ih =>
    obtain ⟨k', v'⟩ := p
    by_cases hk : k' = k
    · rw [show mapSet ((k', v') :: rest) k v =
            (if k' = k then (k, v) :: rest else (k', v') :: mapSet rest k v)
            from rfl,
          if_pos hk, List.map_cons, List.map_cons, hk]
    · rw [show mapGet ((k', v') :: rest) k =
            (if k' = k then some v' else mapGet rest k) from rfl,
          if_neg hk] at h
      rw [show mapSet ((k', v') :: rest) k v =
            (if k' = k then (k, v) :: rest else (k', v') :: mapSet rest k v)
            from rfl,
          if_neg hk, List.map_cons, ih h, List.map_cons]

theorem nodup_keys_mapSet {α : Type} (m : List (String × α)) (k : String)
    (v : α) (h : (m.map Prod.fst).Nodup) :
    ((mapSet m k v).map Prod.fst).Nodup := by
  cases hget : mapGet m k with
  | none =>
    rw [keys_mapSet_of_none m k v hget]
    rw [List.nodup_append]
    refine ⟨h, List.nodup_singleton k, ?_⟩
    intro x hx hx'
    rw [List.mem_singleton] at hx'
    subst hx'
    have := mapGet_isSome_of_mem m x hx
    rw [hget] at this
    exact Bool.noConfusion this
  | some w =>
    rw [keys_mapSet_of_some m k v w hget]
    exact h

theorem sublist_mapDel {α : Type} (m : List (String × α)) (k : String) :
    List.Sublist (mapDel m k) m := by
  induction m with
  | nil => exact List.Sublist.refl []
  | cons p rest ih =>
    obtain ⟨k', v'⟩ := p
    show List.Sublist (if k' = k then rest else (k', v') :: mapDel rest k) _
    by_cases hk : k' = k
    · rw [if_pos hk]
      exact List.sublist_cons_self (k', v') rest
    · rw [if_neg hk]
      exact List.Sublist.cons₂ (k', v') ih

theorem nodup_keys_mapDel {α : Type} (m : List (String × α)) (k : String)
    (h : (m.map Prod.fst).Nodup) : ((mapDel m k).map Prod.fst).Nodup := by
  exact h.sublist ((sublist_mapDel m k).map Prod.fst)

theorem updateSubscribers_of_nonpos (s : ClientState) (k : String)
    (c ct now : Int) (e : CacheEntry) (hent : mapGet s.entries k = some e)
    (hc : c ≤ 0) :
    updateSubscribers s k c ct now =
      ⟨mapSet s.entries k { e with subscribers := c },
       mapSet (mapDel s.gcTimeouts k) k (now + ct)⟩ := by
  simp [updateSubscribers, hent, scheduleGc, clearGcTimeout, hc]

theorem updateSubscribers_of_pos (s : ClientState) (k : String)
    (c ct now : Int) (e : CacheEntry) (hent : mapGet s.entries k = some e)
    (hc : 0 < c) :
    updateSubscribers s k c ct now =
      ⟨mapSet s.entries k { e with subscribers := c },
       mapDel s.gcTimeouts k⟩ := by
  simp [updateSubscribers, hent, clearGcTimeout, not_le.mpr hc]

theorem runFetcherFrom_calls_pos (f : Nat → AttemptOutcome)
    (d : Int) (a r : Nat) : 1 ≤ (runFetcherFrom f d a r).calls := by
  cases r with
  | zero =>
    simp only [runFetcherFrom]
    cases f a with
    | fulfilled v => simp
    | rejectedWith e => by_cases he : jsTruthy e <;> simp [he]
  | succ r =>
    simp only [runFetcherFrom]
    cases f a with
    | fulfilled v => simp
    | rejectedWith e => by_cases he : jsTruthy e <;> simp [he]

theorem runFetcherFrom_calls_le (f : Nat → AttemptOutcome)
    (d : Int) : ∀ r a, (runFetcherFrom f d a r).calls ≤ r + 1 := by
  intro r
  induction r with
  | zero =>
    intro a
    simp only [runFetcherFrom]
    cases f a with
    | fulfilled v => simp
    | rejectedWith e => by_cases he : jsTruthy e <;> simp [he]
  | succ r ih =>
    intro a
    simp only [runFetcherFrom]
    cases f a with
    | fulfilled v => simp
    | rejectedWith e =>
      by_cases he : jsTruthy e
      · have := ih (a + 1)
        simp only [he, if_true]
        omega
      · simp [he]

theorem runFetcherFrom_waits (f : Nat → AttemptOutcome) (d : Int) :
    ∀ r a, (runFetcherFrom f d a r).waits =
      List.replicate ((runFetcherFrom f d a r).calls - 1) d := by
  intro r
  induction r with
  | zero =>
    intro a
    simp only [runFetcherFrom]
    cases f a with
    | fulfilled v => simp
    | rejectedWith e => by_cases he : jsTruthy e <;> simp [he]
  | succ r ih =>
    intro a
    simp only [runFetcherFrom]
    cases f a with
    | fulfilled v => simp
    | rejectedWith e =>
      by_cases he : jsTruthy e
      · simp only [he, if_true]
        have hpos := runFetcherFrom_calls_pos f d (a + 1) r
        rw [show (runFetcherFrom f d (a + 1) r).calls + 1 - 1 =
              ((runFetcherFrom f d (a + 1) r).calls - 1) + 1 from by omega,
            List.replicate_succ, ih (a + 1)]
      · simp [he]

theorem runFetcherFrom_success (f : Nat → AttemptOutcome) (d : Int) :
    ∀ r a k v, k ≤ r →
      (∀ j, j < k → ∃ e, f (a + j) = .rejectedWith e ∧ jsTruthy e = true) →
      f (a + k) = .fulfilled v →
      (runFetcherFrom f d a r).result = .ok (some v) ∧
      (runFetcherFrom f d a r).calls = k + 1 := by
  intro r
  induction r with
  | zero =>
    intro a k v hk hfail hok
    have hk0 : k = 0 := Nat.le_zero.mp hk
    subst hk0
    simp only [Nat.add_zero] at hok
    simp [runFetcherFrom, hok]
  | succ r ih =>
    intro a k v hk hfail hok
    simp only [runFetcherFrom]
    cases k with
    | zero =>
      simp only [Nat.add_zero] at hok
      simp [hok]
    | succ k' =>
      obtain ⟨e, he, htr⟩ := hfail 0 (Nat.succ_pos k')
      simp only [Nat.add_zero] at he
      simp only [he, htr, if_true]
      have hres := ih (a + 1) k' v (Nat.le_of_succ_le_succ hk)
        (fun j hj => by
          obtain ⟨e', he', htr'⟩ := hfail (j + 1) (Nat.succ_lt_succ hj)
          exact ⟨e',
            by rw [show a + 1 + j = a + (j + 1) from by omega]; exact he',
            htr'⟩)
        (by rw [show a + 1 + k' = a + (k' + 1) from by omega]; exact hok)
      exact ⟨hres.1, by simp [hres.2]⟩

theorem runFetcherFrom_falsy (f : Nat → AttemptOutcome) (d : Int) :
    ∀ r a k e, k ≤ r →
      (∀ j, j < k → ∃ e', f (a + j) = .rejectedWith e' ∧ jsTruthy e' = true) →
      f (a + k) = .rejectedWith e → jsTruthy e = false →
      (runFetcherFrom f d a r).result = .ok none ∧
      (runFetcherFrom f d a r).calls = k + 1 := by
  intro r
  induction r with
  | zero =>
    intro a k e hk hfail hrej hfalsy
    have hk0 : k = 0 := Nat.le_zero.mp hk
    subst hk0
    simp only [Nat.add_zero] at hrej
    simp [runFetcherFrom, hrej, hfalsy]
  | succ r ih =>
    intro a k e hk hfail hrej hfalsy
    simp only [runFetcherFrom]
    cases k with
    | zero =>
      simp only [Nat.add_zero] at hrej
      simp [hrej, hfalsy]
    | succ k' =>
      obtain ⟨e0, he0, htr0⟩ := hfail 0 (Nat.succ_pos k')
      simp only [Nat.add_zero] at he0
      simp only [he0, htr0, if_true]
      have hres := ih (a + 1) k' e (Nat.le_of_succ_le_succ hk)
        (fun j hj => by
          obtain ⟨e', he', htr'⟩ := hfail (j + 1) (Nat.succ_lt_succ hj)
          exact ⟨e',
            by rw [show a + 1 + j = a + (j + 1) from by omega]; exact he',
            htr'⟩)
        (by rw [show a + 1 + k' = a + (k' + 1) from by omega]; exact hrej)
        hfalsy
      exact ⟨hres.1, by simp [hres.2]⟩

theorem runFetcherFrom_allfail (f : Nat → AttemptOutcome) (d : Int) :
    ∀ r a, (∀ j, j ≤ r → ∃ e, f (a + j) = .rejectedWith e ∧
        jsTruthy e = true) →
      ∃ e, f (a + r) = .rejectedWith e ∧
        (runFetcherFrom f d a r).result = .error e ∧
        (runFetcherFrom f d a r).calls = r + 1 := by
  intro r
  induction r with
  | zero =>
    intro a hfail
    obtain ⟨e, he, htr⟩ := hfail 0 (le_refl 0)
    simp only [Nat.add_zero] at he ⊢
    exact ⟨e, he, by simp [runFetcherFrom, he, htr],
      by simp [runFetcherFrom, he, htr]⟩
  | succ r ih =>
    intro a hfail
    obtain ⟨e0, he0, htr0⟩ := hfail 0 (Nat.zero_le _)
    simp only [Nat.add_zero] at he0
    obtain ⟨e, he, hres, hcalls⟩ := ih (a + 1) (fun j hj => by
      obtain ⟨e', he', htr'⟩ := hfail (j + 1) (Nat.succ_le_succ hj)
      exact ⟨e',
        by rw [show a + 1 + j = a + (j + 1) from by omega]; exact he', htr'⟩)
    refine ⟨e, ?_, ?_, ?_⟩
    · rw [show a + (r + 1) = a + 1 + r from by omega]; exact he
    · simp only [runFetcherFrom, he0, htr0, if_true]; exact hres
    · simp only [runFetcherFrom, he0, htr0, if_true]; simp [hcalls]

/-- C2: the staleness predicate of a handle agrees with the reference
definition on every entry, every staleTime and every clock value:
stale if the entry or its data is absent, stale unconditionally at
staleTime 0, never stale at staleTime Infinity, and otherwise stale iff
now - updatedAt is at least staleTime. -/
theorem isStale_matches_reference (entry : Option CacheEntry) (st : STime)
    (now : Int) : isStale entry st now = isStaleRef entry st now := by
  cases entry with
  | none => rfl
  | some e =>
    cases hd : e.data with
    | none => simp [isStale, isStaleRef, hd]
    | some v =>
      cases st with
      | inf => simp [isStale, isStaleRef, hd]
      | fin d =>
        by_cases h0 : d = 0
        · subst h0; simp [isStale, isStaleRef, hd]
        · simp [isStale, isStaleRef, hd, h0]

/-- Counterexample to C3: a fetcher that rejects every attempt with the
falsy number 0 is stopped by the bang-err truthiness test after a
single invocation, which returns the undefined data as a success: with
retry 2 the claim predicts 3 invocations and propagation of the final
error, but the loop makes exactly 1 call, sleeps no delay, and settles
with an ok undefined result. -/
theorem runFetcher_falsy_rejection_counterexample :
    (runFetcher exFetchRejectZero 2 100).calls = 1 ∧
    (runFetcher exFetchRejectZero 2 100).waits = [] ∧
    (runFetcher exFetchRejectZero 2 100).result = .ok none := by
  exact ⟨rfl, rfl, rfl⟩

/-- C3 amended: the loop invokes the fetcher at most retry + 1 times
with a wait of retryDelay between consecutive attempts; failure in the
sense of the code means a rejection with a truthy reason: when the
attempts before k fail that way and attempt k fulfills, its value is
returned after exactly k + 1 invocations with no error surfaced; when
attempt k instead rejects with a falsy reason the loop returns the
undefined data immediately as a success, with no retry, wait or error;
only when all retry + 1 attempts reject with truthy reasons is the
error of the last attempt propagated. -/
theorem runFetcher_retry_spec_amended (f : Nat → AttemptOutcome)
    (retry : Nat) (d : Int) :
    (runFetcher f retry d).calls ≤ retry + 1 ∧
    (runFetcher f retry d).waits =
      List.replicate ((runFetcher f retry d).calls - 1) d ∧
    (∀ k v, k ≤ retry →
      (∀ j, j < k → ∃ e, f j = .rejectedWith e ∧ jsTruthy e = true) →
      f k = .fulfilled v →
      (runFetcher f retry d).result = .ok (some v) ∧
      (runFetcher f retry d).calls = k + 1) ∧
    (∀ k e, k ≤ retry →
      (∀ j, j < k → ∃ e', f j = .rejectedWith e' ∧ jsTruthy e' = true) →
      f k = .rejectedWith e → jsTruthy e = false →
      (runFetcher f retry d).result = .ok none ∧
      (runFetcher f retry d).calls = k + 1) ∧
    ((∀ j, j ≤ retry → ∃ e, f j = .rejectedWith e ∧ jsTruthy e = true) →
      ∃ e, f retry = .rejectedWith e ∧
        (runFetcher f retry d).result = .error e ∧
        (runFetcher f retry d).calls = retry + 1) := by
  refine ⟨runFetcherFrom_calls_le f d retry 0,
    runFetcherFrom_waits f d retry 0, ?_, ?_, ?_⟩
  · intro k v hk hfail hok
    exact runFetcherFrom_success f d retry 0 k v hk
      (fun j hj => by simpa using hfail j hj) (by simpa using hok)
  · intro k e hk hfail hrej hfalsy
    exact runFetcherFrom_falsy f d retry 0 k e hk
      (fun j hj => by simpa using hfail j hj) (by simpa using hrej) hfalsy
  · intro hfail
    have h := runFetcherFrom_allfail f d retry 0
      (fun j hj => by simpa using hfail j hj)
    simpa using h

/-- Witness for C3 amended at the example of the claim: with retry 2
and a fetcher rejecting twice with truthy error objects then
fulfilling, exactly 3 invocations occur and the result is the third
value, with no error surfaced. -/
theorem runFetcher_retry_spec_amended_witness :
    (runFetcher exFetchFailTwice 2 100).result = .ok (some (.str "Success")) ∧
    (runFetcher exFetchFailTwice 2 100).calls = 3 := by
  have h := (runFetcher_retry_spec_amended exFetchFailTwice 2 100).2.2.1 2
    (.str "Success") (by decide)
    (fun j hj => ⟨.errObj j, by simp only [exFetchFailTwice, if_pos hj], rfl⟩)
    (by simp [exFetchFailTwice])
  exact h

/-- C1: with no in-flight request for the key, a call to internalFetch
that passes the enabled and staleness gates starts exactly one
operation; a second call with the same key in the same tick joins that
operation without touching the state, so the fetcher runs exactly once
for both callers; and whichever way the shared operation settles, the
registry entry for the key is removed. -/
theorem internalFetch_dedup_single_flight (s₀ : OrchState) (k : String)
    (cfg cfg' : FetchConfig) (now now' : Int)
    (hen : cfg.enabled = true ∨ cfg.force = true)
    (hen' : cfg'.enabled = true ∨ cfg'.force = true)
    (hreg : mapGet s₀.registry k = none)
    (hstale : cfg.force = true ∨
      isStale (mapGet s₀.entries k) cfg.staleTime now = true) :
    (internalFetch s₀ k cfg now).1 = .started s₀.nextPromise ∧
    (internalFetch s₀ k cfg now).2.fetchCount = s₀.fetchCount + 1 ∧
    internalFetch (internalFetch s₀ k cfg now).2 k cfg' now' =
      (.joined s₀.nextPromise, (internalFetch s₀ k cfg now).2) ∧
    (∀ v t ct, mapGet
      (settleSuccess (internalFetch s₀ k cfg now).2 k v t ct).registry k
        = none) ∧
    (∀ e, mapGet
      (settleFailure (internalFetch s₀ k cfg now).2 k e).registry k
        = none) := by
  have hcond1 : (!cfg.enabled && !cfg.force) = false := by
    rcases hen with h | h <;> simp [h]
  have hcond1' : (!cfg'.enabled && !cfg'.force) = false := by
    rcases hen' with h | h <;> simp [h]
  have hstale' :
      (!cfg.force && !(isStale (mapGet s₀.entries k) cfg.staleTime now))
        = false := by
    rcases hstale with h | h <;> simp [h]
  obtain ⟨ent, hfs, hrun⟩ : ∃ ent : CacheEntry, ent.fetchStatus = .fetching ∧
      internalFetch s₀ k cfg now =
        (.started s₀.nextPromise,
          ⟨mapSet s₀.entries k ent, mapSet s₀.registry k s₀.nextPromise,
           s₀.nextPromise + 1, s₀.fetchCount + 1⟩) := by
    cases hget : mapGet s₀.entries k with
    | none =>
      refine ⟨⟨none, .null, .pending, .fetching, 0, cfg.cacheTime, 1⟩, rfl, ?_⟩
      unfold internalFetch internalFetchStart
      rw [hcond1, hreg, hstale', hget]
      simp
    | some e =>
      refine ⟨{ e with fetchStatus := .fetching, error := .str "null" }, rfl,
        ?_⟩
      unfold internalFetch internalFetchStart
      rw [hcond1, hreg, hstale', hget]
      simp
  rw [hrun]
  refine ⟨rfl, rfl, ?_, ?_, ?_⟩
  · unfold internalFetch
    rw [hcond1']
    simp [mapGet_mapSet_self, hfs]
  · intro v t ct
    simp only [settleSuccess, mapDel_mapSet, mapDel_eq_of_get_none _ _ hreg,
      hreg]
  · intro e
    simp only [settleFailure, mapDel_mapSet, mapDel_eq_of_get_none _ _ hreg,
      hreg]

/-- Witness for C1 starting from the empty state: the first call starts
promise 0, the second joins it, and the registry is empty again after a
successful settlement. -/
theorem internalFetch_dedup_single_flight_witness :
    (internalFetch exOrchEmpty "users" cfgAlways 0).1 = .started 0 ∧
    internalFetch (internalFetch exOrchEmpty "users" cfgAlways 0).2 "users"
        cfgAlways 5 =
      (.joined 0, (internalFetch exOrchEmpty "users" cfgAlways 0).2) ∧
    mapGet (settleSuccess (internalFetch exOrchEmpty "users" cfgAlways 0).2
      "users" (some (.str "v")) 9 300000).registry "users" = none := by
  have h := internalFetch_dedup_single_flight exOrchEmpty "users"
    cfgAlways cfgAlways 0 5 (Or.inl rfl) (Or.inl rfl) rfl (Or.inr (by decide))
  exact ⟨h.1, h.2.2.1, h.2.2.2.1 (some (.str "v")) 9 300000⟩

/-- C4: dropping the subscriber count of an existing entry to 0 or
below schedules eviction exactly ttl after the call, with exactly one
live timer for the key; the entry is observed alive strictly before
the deadline and gone from the deadline on; rescheduling replaces the
timer and restarts the wait from the clock of the later call; and a
positive count cancels the pending eviction so the entry survives
every time. -/
theorem updateSubscribers_eviction_schedule (s : ClientState) (k : String)
    (e : CacheEntry) (c ttl now : Int)
    (hent : mapGet s.entries k = some e)
    (hnodup : (s.gcTimeouts.map Prod.fst).Nodup)
    (hc : c ≤ 0) :
    mapGet (updateSubscribers s k c ttl now).gcTimeouts k = some (now + ttl) ∧
    timersFor (updateSubscribers s k c ttl now).gcTimeouts k = [now + ttl] ∧
    (∀ t, aliveAt (updateSubscribers s k c ttl now) k t =
      decide (t < now + ttl)) ∧
    (∀ c' now', c' ≤ 0 →
      timersFor (updateSubscribers (updateSubscribers s k c ttl now) k c' ttl
        now').gcTimeouts k = [now' + ttl]) ∧
    (∀ c' now', 0 < c' →
      mapGet (updateSubscribers (updateSubscribers s k c ttl now) k c' ttl
        now').gcTimeouts k = none ∧
      ∀ t, aliveAt (updateSubscribers (updateSubscribers s k c ttl now) k c'
        ttl now') k t = true) := by
  have hdelnone : mapGet (mapDel s.gcTimeouts k) k = none :=
    mapGet_mapDel_self _ _ hnodup
  rw [updateSubscribers_of_nonpos s k c ttl now e hent hc]
  have hE1 : mapGet (mapSet s.entries k { e with subscribers := c }) k =
      some { e with subscribers := c } := mapGet_mapSet_self _ _ _
  have hnodup1 :
      ((mapSet (mapDel s.gcTimeouts k) k (now + ttl)).map Prod.fst).Nodup :=
    nodup_keys_mapSet _ _ _ (nodup_keys_mapDel _ _ hnodup)
  refine ⟨mapGet_mapSet_self _ _ _,
    timersFor_mapSet_of_none _ _ _ hdelnone, ?_, ?_, ?_⟩
  · intro t
    by_cases ht : now + ttl ≤ t
    · simp [aliveAt, mapGet_mapSet_self, ht, not_lt.mpr ht]
    · simp [aliveAt, mapGet_mapSet_self, ht, not_le.mp ht]
  · intro c' now' hc'
    rw [updateSubscribers_of_nonpos _ k c' ttl now' _ hE1 hc']
    exact timersFor_mapSet_of_none _ _ _ (mapGet_mapDel_self _ _ hnodup1)
  · intro c' now' hc'
    rw [updateSubscribers_of_pos _ k c' ttl now' _ hE1 hc']
    refine ⟨mapGet_mapDel_self _ _ hnodup1, ?_⟩
    intro t
    simp [aliveAt, mapGet_mapDel_self _ _ hnodup1, mapGet_mapSet_self]

/-- Witness for C4 at the example of the claim: cacheTime 1000 and the
count dropping to 0 at time 0 leaves the entry alive at 999 and gone at
1001, unless a subscriber arrives at 999, in which case the timer is
cancelled and the entry survives every time. -/
theorem updateSubscribers_eviction_schedule_witness :
    aliveAt (updateSubscribers exClientOne "todos" 0 1000 0) "todos" 999
      = true ∧
    aliveAt (updateSubscribers exClientOne "todos" 0 1000 0) "todos" 1001
      = false ∧
    mapGet (updateSubscribers (updateSubscribers exClientOne "todos" 0 1000 0)
      "todos" 1 1000 999).gcTimeouts "todos" = none ∧
    aliveAt (updateSubscribers (updateSubscribers exClientOne "todos" 0 1000 0)
      "todos" 1 1000 999) "todos" 99999 = true := by
  have h := updateSubscribers_eviction_schedule exClientOne "todos"
    exEntryCached 0 1000 0 rfl (by simp [exClientOne]) (by decide)
  refine ⟨?_, ?_, (h.2.2.2.2 1 999 (by decide)).1,
    (h.2.2.2.2 1 999 (by decide)).2 99999⟩
  · rw [h.2.2.1 999]; decide
  · rw [h.2.2.1 1001]; decide

/-- Counterexample to C5: mapping keys are serialized in insertion
order, not with keys sorted, so the two property orders of the same
mapping canonicalize to different strings; and an object inside a
sequence is coerced to the object placeholder text rather than being
canonicalized element-wise. -/
theorem serializeKey_mapping_order_counterexample :
    serializeKey (.obj [("b", .num 1), ("a", .num 2)]) =
      "\x7b\"b\":1,\"a\":2\x7d" ∧
    serializeKey (.obj [("a", .num 2), ("b", .num 1)]) =
      "\x7b\"a\":2,\"b\":1\x7d" ∧
    decide (serializeKey (.obj [("b", .num 1), ("a", .num 2)]) =
      serializeKey (.obj [("a", .num 2), ("b", .num 1)])) = false ∧
    serializeKey (.arr [.str "a", .obj [("x", .num 1)]]) =
      "a,[object Object]" := by
  refine ⟨rfl, rfl, by decide, rfl⟩

/-- C5 amended: canonicalization is pure and deterministic; a string
key canonicalizes to itself; a sequence is joined with a comma after JS
string coercion of each element (an object element collapses to the
object placeholder text); a mapping key is serialized by JSON.stringify
in insertion order with no key sorting; and any two keys with equal
canonical strings address the same store entry. -/
theorem serializeKey_canonicalization_amended :
    (∀ s : String, serializeKey (.str s) = s) ∧
    serializeKey (.arr []) = "" ∧
    (∀ v : KeyVal, serializeKey (.arr [v]) = jsToString v) ∧
    (∀ (v w : KeyVal) (ws : List KeyVal),
      serializeKey (.arr (v :: w :: ws)) =
        jsToString v ++ "," ++ serializeKey (.arr (w :: ws))) ∧
    (∀ fs : List (String × KeyVal),
      serializeKey (.obj fs) = jsonStringify (.obj fs)) ∧
    (∀ (st : List (String × CacheEntry)) (k₁ k₂ : KeyVal),
      serializeKey k₁ = serializeKey k₂ →
        getEntryByKey st k₁ = getEntryByKey st k₂) := by
  refine ⟨fun s => rfl, rfl, fun v => rfl, fun v w ws => rfl, fun fs => rfl,
    ?_⟩
  intro st k₁ k₂ h
  unfold getEntryByKey
  rw [h]

/-- Witness for C5 amended: two distinct raw keys that collide after JS
string coercion address the same store entry. -/
theorem serializeKey_canonicalization_amended_witness :
    serializeKey (.str "todos") = "todos" ∧
    getEntryByKey [("a,[object Object]", exEntryCached)]
        (.arr [.str "a", .obj [("x", .num 1)]]) =
      getEntryByKey [("a,[object Object]", exEntryCached)]
        (.arr [.str "a", .obj [("y", .num 2)]]) := by
  exact ⟨serializeKey_canonicalization_amended.1 "todos",
    serializeKey_canonicalization_amended.2.2.2.2.2 _ _ _ rfl⟩

/-- Counterexample to C6: with staleTime Infinity and warm data,
invalidate zeroes updatedAt but the immediately triggered fetch
decision finds the entry not stale and returns without fetching, so no
new fetch occurs. -/
theorem invalidate_staleTime_inf_counterexample :
    (handleInvalidate exOrchCached "k" cfgInf 900).1 = .noFetch ∧
    (handleInvalidate exOrchCached "k" cfgInf 900).2.fetchCount = 0 ∧
    mapGet (handleInvalidate exOrchCached "k" cfgInf 900).2.entries "k" =
      some { exEntryCached with updatedAt := 0 } := by
  refine ⟨by decide, by decide, by decide⟩

/-- C6 amended: invalidate zeroes updatedAt and leaves every other
field of the entry alone, then runs the unforced fetch decision; with
staleTime Infinity no fetch is started, while with a finite staleTime
that deems the zeroed entry stale exactly one new fetch starts, marking
the entry fetching and leaving its data untouched. -/
theorem invalidate_behavior_amended (s : OrchState) (k : String)
    (cfg : FetchConfig) (now : Int) (e : CacheEntry)
    (hen : cfg.enabled = true)
    (hreg : mapGet s.registry k = none)
    (hent : mapGet s.entries k = some e)
    (hdata : e.data.isSome = true) :
    (cfg.staleTime = .inf →
      handleInvalidate s k cfg now =
        (.noFetch,
          { s with entries := mapSet s.entries k { e with updatedAt := 0 } })) ∧
    (∀ d : Int, cfg.staleTime = .fin d → (d = 0 ∨ now ≥ d) →
      (handleInvalidate s k cfg now).1 = .started s.nextPromise ∧
      (handleInvalidate s k cfg now).2.fetchCount = s.fetchCount + 1 ∧
      mapGet (handleInvalidate s k cfg now).2.entries k =
        some { e with updatedAt := 0, fetchStatus := .fetching,
                      error := .str "null" }) := by
  have hdne : e.data ≠ none := Option.isSome_iff_ne_none.mp hdata
  constructor
  · intro hinf
    unfold handleInvalidate internalFetch internalFetchStart
    rw [hent, hinf]
    simp [hen, hreg, mapGet_mapSet_self, isStale, hdne]
  · intro d hfin hd
    have hstl : isStale (some { e with updatedAt := 0 }) (.fin d) now
        = true := by
      by_cases h0 : d = 0
      · simp [isStale, hdne, h0]
      · rcases hd with h0' | hge
        · exact absurd h0' h0
        · simp [isStale, hdne, h0, sub_zero, hge]
    unfold handleInvalidate internalFetch internalFetchStart
    rw [hent, hfin]
    simp [hen, hreg, mapGet_mapSet_self, hstl]

/-- Witness for C6 amended at a finite staleTime: invalidate on warm
data starts exactly one new fetch. -/
theorem invalidate_behavior_amended_witness :
    (handleInvalidate exOrchCached "k" cfgFin100 900).1 = .started 0 ∧
    (handleInvalidate exOrchCached "k" cfgFin100 900).2.fetchCount = 1 := by
  have h := invalidate_behavior_amended exOrchCached "k" cfgFin100 900
    exEntryCached rfl rfl (by decide) (by decide)
  have h2 := h.2 100 rfl (Or.inr (by decide))
  exact ⟨h2.1, h2.2.1⟩

theorem updateSubscribers_entries (s : ClientState) (k : String)
    (c ct now : Int) (e : CacheEntry) (hent : mapGet s.entries k = some e) :
    (updateSubscribers s k c ct now).entries =
      mapSet s.entries k { e with subscribers := c } := by
  by_cases hc : c ≤ 0
  · rw [updateSubscribers_of_nonpos s k c ct now e hent hc]
  · rw [updateSubscribers_of_pos s k c ct now e hent (not_le.mp hc)]

/-- Counterexample to C7: the key-change path applies no floor, so an
old entry whose count already reached 0 is driven to a negative
subscriber count. -/
theorem keyChange_negative_subscribers_counterexample :
    (mapGet (keyChangeOldKey exClientZero "old" 1000 0).entries "old").map
      (·.subscribers) = some (-1) ∧
    decide (0 ≤ (-1 : Int)) = false := by
  exact ⟨by decide, by decide⟩

/-- C7 amended: the teardown path floors the decrement at 0 and so
never stores a negative count, but updateSubscribers stores whatever
count it is given, and the key-change path passes the raw decrement
with no floor, so the count of the old key drops below 0 exactly when it was
not positive before the change. -/
theorem subscribers_decrement_amended (s : ClientState) (k : String)
    (ct now : Int) (e : CacheEntry) (hent : mapGet s.entries k = some e) :
    (mapGet (teardown s k ct now).entries k).map (·.subscribers) =
      some (max 0 (e.subscribers - 1)) ∧
    (∀ n, (mapGet (teardown s k ct now).entries k).map (·.subscribers) =
      some n → 0 ≤ n) ∧
    (mapGet (keyChangeOldKey s k ct now).entries k).map (·.subscribers) =
      some (e.subscribers - 1) ∧
    (∀ c, (mapGet (updateSubscribers s k c ct now).entries k).map
      (·.subscribers) = some c) := by
  have htd : (mapGet (teardown s k ct now).entries k).map (·.subscribers) =
      some (max 0 (e.subscribers - 1)) := by
    unfold teardown
    rw [hent, updateSubscribers_entries s k _ ct now e hent,
      mapGet_mapSet_self]
    rfl
  refine ⟨htd, ?_, ?_, ?_⟩
  · intro n hn
    rw [htd] at hn
    cases hn
    exact le_max_left 0 _
  · unfold keyChangeOldKey
    rw [hent, updateSubscribers_entries s k _ ct now e hent,
      mapGet_mapSet_self]
    rfl
  · intro c
    rw [updateSubscribers_entries s k c ct now e hent, mapGet_mapSet_self]
    rfl

/-- Witness for C7 amended: teardown from one subscriber stores 0, and
updateSubscribers stores a given positive count verbatim. -/
theorem subscribers_decrement_amended_witness :
    (mapGet (teardown exClientOne "todos" 1000 0).entries "todos").map
      (·.subscribers) = some 0 ∧
    (mapGet (updateSubscribers exClientOne "todos" 5 1000 0).entries
      "todos").map (·.subscribers) = some 5 := by
  have h := subscribers_decrement_amended exClientOne "todos" 1000 0
    exEntryCached (by decide)
  exact ⟨h.1.trans (by decide), h.2.2.2 5⟩

/-- Counterexample to C8: when every attempt fails, the promise
returned by internalFetch (and so by refetch) is fulfilled with
undefined rather than rejected; the failure is visible only through the
error and isError observables. -/
theorem refetch_promise_never_rejects_counterexample :
    (runOperation exOrchFetching "k8" exFetchAlwaysFail 2 100 5000 1000).1 =
      .resolved none ∧
    decide ((runOperation exOrchFetching "k8" exFetchAlwaysFail 2 100 5000
      1000).1 = .rejected (.str "boom")) = false ∧
    handleError (runOperation exOrchFetching "k8" exFetchAlwaysFail 2 100
      5000 1000).2 "k8" = some (.str "boom") ∧
    handleIsError (runOperation exOrchFetching "k8" exFetchAlwaysFail 2 100
      5000 1000).2 "k8" = true := by
  exact ⟨by decide, by decide, by decide, by decide⟩

/-- C8 amended: after retries are exhausted the failure is surfaced
solely through the entry-backed error and isError observables; the
promise of the shared operation is always fulfilled with undefined, for any
fetcher, so not even the awaitable returned by refetch rejects. -/
theorem fetch_error_only_observables_amended (s : OrchState) (k : String)
    (f : Nat → AttemptOutcome) (retry : Nat) (d now ct : Int)
    (en : CacheEntry) (e : JSVal)
    (hent : mapGet s.entries k = some en)
    (hfail : (runFetcher f retry d).result = .error e) :
    (∀ g : Nat → AttemptOutcome,
      (runOperation s k g retry d now ct).1 = .resolved none) ∧
    handleError (runOperation s k f retry d now ct).2 k = some e ∧
    handleIsError (runOperation s k f retry d now ct).2 k = true := by
  refine ⟨?_, ?_, ?_⟩
  · intro g
    unfold runOperation
    cases (runFetcher g retry d).result <;> rfl
  · unfold runOperation
    rw [hfail]
    simp [settleFailure, hent, handleError, mapGet_mapSet_self]
  · unfold runOperation
    rw [hfail]
    simp [settleFailure, hent, handleIsError, handleStatus,
      mapGet_mapSet_self]

/-- Witness for C8 amended: a concrete all-failing run resolves with
undefined while the error observable carries the final error. -/
theorem fetch_error_only_observables_amended_witness :
    (runOperation exOrchFetching "k8" exFetchAlwaysFail 1 50 0 1000).1 =
      .resolved none ∧
    handleError (runOperation exOrchFetching "k8" exFetchAlwaysFail 1 50 0
      1000).2 "k8" = some (.str "boom") := by
  have h := fetch_error_only_observables_amended exOrchFetching "k8"
    exFetchAlwaysFail 1 50 0 1000 exEntryFetching (.str "boom")
    (by decide) rfl
  exact ⟨h.1 exFetchAlwaysFail, h.2.1⟩

/-- C9: a canonical key is a member of the group rooted at a target key
iff it equals the target or extends it past a comma, and the filtered
fetching counter counts exactly the fetching entries whose key is in
the group of the filter key. -/
theorem useIsFetching_prefix_groups :
    (∀ K P : String, isMemberOfGroup K P = true ↔
      (K = P ∨ ∃ rest : String, K = P ++ "," ++ rest)) ∧
    (∀ (entries : List (String × CacheEntry)) (qk : KeyVal),
      useIsFetching entries (some qk) =
        (entries.filter (fun p => decide (p.2.fetchStatus = .fetching) &&
          isMemberOfGroup p.1 (serializeKey qk))).length) := by
  constructor
  · intro K P
    unfold isMemberOfGroup jsStartsWith
    rw [Bool.or_eq_true, decide_eq_true_eq, List.isPrefixOf_iff_prefix]
    constructor
    · rintro (h | ⟨t, ht⟩)
      · exact Or.inl h
      · refine Or.inr ⟨⟨t⟩, ?_⟩
        apply String.ext
        exact ht.symm
    · rintro (h | ⟨rest, hrest⟩)
      · exact Or.inl h
      · refine Or.inr ⟨rest.data, ?_⟩
        rw [hrest]
        rfl
  · intro entries qk
    simp [useIsFetching, List.countP_eq_length_filter]

/-- Witness for C9 at the examples of the claim: todos, todos comma 1
and todos comma list are in group todos, the groups todo and todos do
not cross-match, and the count over a concrete store is exactly the
members that are fetching. -/
theorem useIsFetching_prefix_groups_witness :
    isMemberOfGroup "todos,1" "todos" = true ∧
    isMemberOfGroup "todos,list" "todos" = true ∧
    isMemberOfGroup "todos" "todos" = true ∧
    isMemberOfGroup "todos" "todo" = false ∧
    isMemberOfGroup "todo" "todos" = false ∧
    useIsFetching exEntriesGroups (some (.str "todos")) = 3 := by
  refine ⟨(useIsFetching_prefix_groups.1 "todos,1" "todos").mpr
      (Or.inr ⟨"1", by decide⟩),
    (useIsFetching_prefix_groups.1 "todos,list" "todos").mpr
      (Or.inr ⟨"list", by decide⟩),
    (useIsFetching_prefix_groups.1 "todos" "todos").mpr (Or.inl rfl),
    by decide, by decide, by decide⟩

/-- C10: starting a fetch on a key whose entry exists rewrites only
fetchStatus (to fetching) and error (to the string holding the four
letters of null, a truthy value), leaving data, status, updatedAt,
cacheTime and subscribers exactly as they were. -/
theorem internalFetch_existing_entry_frame (s : OrchState) (k : String)
    (cfg : FetchConfig) (now : Int) (e : CacheEntry)
    (hen : cfg.enabled = true ∨ cfg.force = true)
    (hreg : mapGet s.registry k = none)
    (hent : mapGet s.entries k = some e)
    (hstale : cfg.force = true ∨
      isStale (mapGet s.entries k) cfg.staleTime now = true) :
    mapGet (internalFetch s k cfg now).2.entries k =
      some { e with fetchStatus := .fetching, error := .str "null" } ∧
    ({ e with fetchStatus := .fetching, error := .str "null" }
      : CacheEntry).data = e.data ∧
    ({ e with fetchStatus := .fetching, error := .str "null" }
      : CacheEntry).status = e.status ∧
    ({ e with fetchStatus := .fetching, error := .str "null" }
      : CacheEntry).updatedAt = e.updatedAt ∧
    ({ e with fetchStatus := .fetching, error := .str "null" }
      : CacheEntry).cacheTime = e.cacheTime ∧
    ({ e with fetchStatus := .fetching, error := .str "null" }
      : CacheEntry).subscribers = e.subscribers ∧
    jsTruthy (.str "null") = true := by
  have hcond1 : (!cfg.enabled && !cfg.force) = false := by
    rcases hen with h | h <;> simp [h]
  have hstale' :
      (!cfg.force && !(isStale (mapGet s.entries k) cfg.staleTime now))
        = false := by
    rcases hstale with h | h <;> simp [h]
  refine ⟨?_, rfl, rfl, rfl, rfl, rfl, by decide⟩
  unfold internalFetch internalFetchStart
  rw [hcond1, hreg, hstale', hent]
  simp [mapGet_mapSet_self]

/-- Witness for C10: starting a fetch over a warm entry keeps its data
and stamps the marker error string. -/
theorem internalFetch_existing_entry_frame_witness :
    mapGet (internalFetch exOrchCached "k" cfgAlways 600).2.entries "k" =
      some { exEntryCached with fetchStatus := FetchStatus.fetching, error := .str "null" } ∧
    jsTruthy (.str "null") = true := by
  have h := internalFetch_existing_entry_frame exOrchCached "k" cfgAlways 600
    exEntryCached (Or.inl rfl) rfl (by decide) (Or.inr (by decide))
  exact ⟨h.1, h.2.2.2.2.2.2⟩

end VueQ
